import Mathlib

/-!
# Verification of function-type ABI lowering and call emission (GenFunc.cpp)

A shallow embedding of lib/IRGen/GenFunc.cpp: the function-type lowering
descriptor (two-word closure representation, derived low-level signatures with
and without a context argument, memoized), call emission (context elision,
indirect aggregate returns, result reconstruction), builtin intrinsic lowering
(integer/float dispatch for add/mul/sub), and the function prologue/epilogue
marshaling.

Low-level (LLVM) types and values are modelled as inductive types; the
instruction builder is modelled as a state of emitted instructions plus a
store keyed by address values; mutable signature caches become explicit state
passing; assertion failures and iterator overruns become Option results.
-/

namespace IRGen

/-- Low-level (LLVM) types, as used by this file: named primitive types
(void, iN, float, double), pointers, structs, and function types. -/
inductive LLType where
  | prim (name : String) : LLType
  | ptr (pointee : LLType) : LLType
  | structTy (elts : List LLType) : LLType
  | funcTy (ret : LLType) (params : List LLType) : LLType

mutual

/-- Decidable equality for low-level types, mutually with lists of them
(the derive handler does not support this nested inductive). -/
def LLType.decEq : (a b : LLType) → Decidable (a = b)
  | .prim m, .prim n =>
    match String.decEq m n with
    | isTrue h => isTrue (h ▸ rfl)
    | isFalse h => isFalse (fun he => h (by cases he; rfl))
  | .ptr a, .ptr b =>
    match LLType.decEq a b with
    | isTrue h => isTrue (h ▸ rfl)
    | isFalse h => isFalse (fun he => h (by cases he; rfl))
  | .structTy xs, .structTy ys =>
    match LLType.decEqList xs ys with
    | isTrue h => isTrue (h ▸ rfl)
    | isFalse h => isFalse (fun he => h (by cases he; rfl))
  | .funcTy r ps, .funcTy r2 ps2 =>
    match LLType.decEq r r2, LLType.decEqList ps ps2 with
    | isTrue h1, isTrue h2 => isTrue (h1 ▸ h2 ▸ rfl)
    | isFalse h1, _ => isFalse (fun he => h1 (by cases he; rfl))
    | _, isFalse h2 => isFalse (fun he => h2 (by cases he; rfl))
  | .prim _, .ptr _ => isFalse (fun h => nomatch h)
  | .prim _, .structTy _ => isFalse (fun h => nomatch h)
  | .prim _, .funcTy _ _ => isFalse (fun h => nomatch h)
  | .ptr _, .prim _ => isFalse (fun h => nomatch h)
  | .ptr _, .structTy _ => isFalse (fun h => nomatch h)
  | .ptr _, .funcTy _ _ => isFalse (fun h => nomatch h)
  | .structTy _, .prim _ => isFalse (fun h => nomatch h)
  | .structTy _, .ptr _ => isFalse (fun h => nomatch h)
  | .structTy _, .funcTy _ _ => isFalse (fun h => nomatch h)
  | .funcTy _ _, .prim _ => isFalse (fun h => nomatch h)
  | .funcTy _ _, .ptr _ => isFalse (fun h => nomatch h)
  | .funcTy _ _, .structTy _ => isFalse (fun h => nomatch h)

/-- Decidable equality for lists of low-level types. -/
def LLType.decEqList : (xs ys : List LLType) → Decidable (xs = ys)
  | [], [] => isTrue rfl
  | [], _ :: _ => isFalse (fun h => nomatch h)
  | _ :: _, [] => isFalse (fun h => nomatch h)
  | x :: xs, y :: ys =>
    match LLType.decEq x y, LLType.decEqList xs ys with
    | isTrue h1, isTrue h2 => isTrue (h1 ▸ h2 ▸ rfl)
    | isFalse h1, _ => isFalse (fun he => h1 (by cases he; rfl))
    | _, isFalse h2 => isFalse (fun he => h2 (by cases he; rfl))

end

instance : DecidableEq LLType := LLType.decEq

/-- The void type. -/
def LLType.voidTy : LLType := .prim "void"

/-- llvm::Type::isFloatingPointTy, for the types we model. -/
def LLType.isFloatingPointTy : LLType → Bool
  | .prim "float" => true
  | .prim "double" => true
  | _ => false

/-- IGM.Int8PtrTy: the opaque byte-pointer type used for both words of the
closure representation. -/
def Int8PtrTy : LLType := .ptr (.prim "i8")

/-- Low-level values.  An undef of a given type (llvm::UndefValue), a formal
argument of the current function, a global, an instruction result, or a
struct-field address produced by CreateStructGEP (modelled as a deterministic
value so that loads and stores to the same field meet in the store). -/
inductive LLValue where
  | undef (ty : LLType) : LLValue
  | arg (idx : Nat) (ty : LLType) : LLValue
  | global (name : String) (ty : LLType) : LLValue
  | inst (id : Nat) (ty : LLType) : LLValue
  | gep (base : LLValue) (idx : Nat) : LLValue
deriving DecidableEq

/-- llvm::Value::getType. -/
def LLValue.getType : LLValue → LLType
  | .undef ty => ty
  | .arg _ ty => ty
  | .global _ ty => ty
  | .inst _ ty => ty
  | .gep base idx =>
    match base.getType with
    | .ptr (.structTy elts) => .ptr (elts.getD idx .voidTy)
    | _ => .voidTy

/-- isa of llvm::UndefValue. -/
def LLValue.isUndef : LLValue → Bool
  | .undef _ => true
  | _ => false

/-- RValueSchema: how a source type's runtime representation decomposes —
either an ordered list of primitive scalar slots, or a single aggregate
passed by address. -/
inductive RValueSchema where
  | scalars (types : List LLType) : RValueSchema
  | aggregate (ty : LLType) (align : Nat) : RValueSchema
deriving DecidableEq

namespace RValueSchema

def isAggregate : RValueSchema → Bool
  | .aggregate _ _ => true
  | _ => false

def isScalar : RValueSchema → Bool
  | .scalars _ => true
  | _ => false

/-- RValueSchema::isScalar(n): scalar with exactly n slots. -/
def isScalarN (s : RValueSchema) (n : Nat) : Bool :=
  match s with
  | .scalars ts => ts.length == n
  | _ => false

def getScalarTypes : RValueSchema → List LLType
  | .scalars ts => ts
  | _ => []

def getAggregateType : RValueSchema → LLType
  | .aggregate ty _ => ty
  | _ => .voidTy

def getAggregateAlignment : RValueSchema → Nat
  | .aggregate _ a => a
  | _ => 0

end RValueSchema

/-- The part of a TypeInfo (type lowering descriptor) that this file
consumes: the storage type, the storage alignment, and the value schema. -/
structure TypeInfo where
  storageType : LLType
  storageAlignment : Nat
  schema : RValueSchema
deriving DecidableEq

/-- Source-level types.  A base type carries its lowering descriptor (type
lowering for non-function, non-tuple types lives outside this file); a tuple
additionally exposes its fields, which signature derivation drills into one
level; function types are lowered by convertFunctionType below. -/
inductive Ty where
  | base (info : TypeInfo) : Ty
  | tuple (info : TypeInfo) (fields : List Ty) : Ty
  | func (input result : Ty) : Ty

/-- Target pointer size in bytes (TargetData.getPointerSize). -/
def pointerSize : Nat := 8

/-- Target pointer ABI alignment (TargetData.getPointerABIAlignment). -/
def pointerAlign : Nat := 8

/-- TypeConverter::convertFunctionType combined with FuncTypeInfo::getSchema:
every function type is lowered to a struct of two opaque pointers, with the
schema being those two scalar slots. -/
def funcTypeInfo : TypeInfo :=
  { storageType := .structTy [Int8PtrTy, Int8PtrTy]
    storageAlignment := pointerAlign
    schema := .scalars [Int8PtrTy, Int8PtrTy] }

/-- IGM.getFragileTypeInfo, restricted to the descriptor fields this file
reads. -/
def getFragileTypeInfo : Ty → TypeInfo
  | .base info => info
  | .tuple info _ => info
  | .func _ _ => funcTypeInfo

/-- A derived low-level function signature: one return type plus ordered
parameter types (llvm::FunctionType, always non-variadic here). -/
structure LLFunctionType where
  ret : LLType
  params : List LLType
deriving DecidableEq

/-- addArgType: accumulate the low-level argument types contributed by one
source-level argument group — its scalar slots if the schema is scalar,
otherwise one pointer to the aggregate type. -/
def addArgType (ty : Ty) (argTypes : List LLType) : List LLType :=
  let schema := (getFragileTypeInfo ty).schema
  match schema with
  | .scalars ts => argTypes ++ ts
  | .aggregate t _ => argTypes ++ [.ptr t]

/-- The uncached body of FuncTypeInfo::getFunctionType: derive the low-level
signature for a function type from the result schema (four-way rule), the
one-level tuple flattening of the input, and the optional trailing data
argument. -/
def computeFunctionType (input result : Ty) (needsData : Bool) : LLFunctionType :=
  -- Compute the result-type information.
  let resultSchema := (getFragileTypeInfo result).schema
  let (resultType, argTypes0) :=
    match resultSchema with
    -- If this is an aggregate return, return indirectly.
    | .aggregate t _ => (LLType.voidTy, [LLType.ptr t])
    -- If there are no results, return void.
    | .scalars [] => (LLType.voidTy, [])
    -- If there is exactly one result, return it.
    | .scalars [t] => (t, [])
    -- Otherwise, return a first-class aggregate.
    | .scalars ts => (LLType.structTy ts, [])
  -- Drill into the first level of tuple, if present.
  let argTypes1 :=
    match input with
    | .tuple _ fields => fields.foldl (fun acc f => addArgType f acc) argTypes0
    | _ => addArgType input argTypes0
  -- If we need a data argument, add it in last.
  let argTypes2 := if needsData then argTypes1 ++ [Int8PtrTy] else argTypes1
  { ret := resultType, params := argTypes2 }

/-- The mutable state of a FuncTypeInfo descriptor: the function type it
describes plus the two lazily-computed signature caches
(FunctionTypeWithData / FunctionTypeWithoutData, both initially null). -/
structure FuncTypeInfoState where
  input : Ty
  result : Ty
  FunctionTypeWithData : Option LLFunctionType := none
  FunctionTypeWithoutData : Option LLFunctionType := none

/-- FuncTypeInfo::getFunctionType: return the cached signature for the
requested flag if present; otherwise compute it and cache it under that
flag.  The mutable caches become explicit state passing. -/
def FuncTypeInfoState.getFunctionType (s : FuncTypeInfoState) (needsData : Bool) :
    LLFunctionType × FuncTypeInfoState :=
  match needsData, s.FunctionTypeWithData, s.FunctionTypeWithoutData with
  | true, some cached, _ => (cached, s)
  | false, _, some cached => (cached, s)
  | b, _, _ =>
    let irType := computeFunctionType s.input s.result b
    -- Cache the type.
    if b then (irType, { s with FunctionTypeWithData := some irType })
    else (irType, { s with FunctionTypeWithoutData := some irType })

/-- Positional calling-convention attributes (llvm::Attribute). -/
inductive Attr where
  | structRet : Attr
  | noAlias : Attr
deriving DecidableEq

/-- llvm::AttributeWithIndex: a set of attributes at an argument position
(1-based, as in LLVM). -/
structure AttrWithIndex where
  index : Nat
  attrs : List Attr

/-- One emitted low-level instruction.  Loads carry no result id: the value
a load produces is resolved against the store (memory) component of the
emission state, so that load/store round trips are semantic facts. -/
inductive Instr where
  | alloca (id : Nat) (ty : LLType) (align : Nat) (name : String) : Instr
  | structGEP (base : LLValue) (idx : Nat) : Instr
  | loadInst (addr : LLValue) (align : Nat) : Instr
  | storeInst (v : LLValue) (addr : LLValue) (align : Nat) : Instr
  | bitcast (id : Nat) (v : LLValue) (toTy : LLType) : Instr
  | callInst (id : Nat) (callee : LLValue) (fnTy : LLFunctionType)
      (args : List LLValue) (attrList : List AttrWithIndex) : Instr
  | extractValue (id : Nat) (agg : LLValue) (idx : Nat) : Instr
  | insertValue (id : Nat) (agg : LLValue) (v : LLValue) (idx : Nat) : Instr
  | binop (id : Nat) (op : String) (lhs rhs : LLValue) : Instr
  | unop (id : Nat) (op : String) (v : LLValue) : Instr
  | retVoid : Instr
  | ret (v : LLValue) : Instr

/-- The instruction-builder state: a fresh-id counter, the instructions
emitted so far in order, and the memory written by stores (an association
list keyed by address values, newest first). -/
structure EmitState where
  nextId : Nat := 0
  instrs : List Instr := []
  mem : List (LLValue × LLValue) := []

def EmitState.emit (s : EmitState) (i : Instr) : EmitState :=
  { s with instrs := s.instrs ++ [i] }

def EmitState.fresh (s : EmitState) (ty : LLType) : LLValue × EmitState :=
  (.inst s.nextId ty, { s with nextId := s.nextId + 1 })

/-- Look an address up in memory; an address never stored to reads as undef
of the given type. -/
def lookupMem : List (LLValue × LLValue) → LLValue → LLType → LLValue
  | [], _, ty => .undef ty
  | (k, v) :: rest, addr, ty => if k = addr then v else lookupMem rest addr ty

/-- The pointee of a pointer type (void for non-pointers). -/
def LLType.pointee : LLType → LLType
  | .ptr t => t
  | _ => .voidTy

/-- Alignment.alignmentAtOffset: the alignment guaranteed at a given byte
offset from a base of the given alignment, modelled as gcd. -/
def alignmentAtOffset (align offset : Nat) : Nat := Nat.gcd align offset

/-- An Address: a low-level address value plus its known alignment.  An
invalid Address (isValid false) is modelled as an absent Option. -/
structure Address where
  addr : LLValue
  align : Nat
deriving DecidableEq

namespace Builder

/-- CreateStructGEP: the address of field idx of a struct at base.  The
resulting address value is deterministic in (base, idx). -/
def structGEP (s : EmitState) (base : LLValue) (idx : Nat) : LLValue × EmitState :=
  (.gep base idx, s.emit (.structGEP base idx))

/-- CreateLoad: read the current memory at the address. -/
def load (s : EmitState) (addr : LLValue) (align : Nat) : LLValue × EmitState :=
  (lookupMem s.mem addr addr.getType.pointee, s.emit (.loadInst addr align))

/-- CreateStore: record the store and update memory. -/
def store (s : EmitState) (v : LLValue) (addr : LLValue) (align : Nat) : EmitState :=
  { s.emit (.storeInst v addr align) with mem := (addr, v) :: s.mem }

end Builder

/-- RValue: either an ordered list of scalar low-level values or a single
aggregate address, never both. -/
inductive RValue where
  | scalars (vs : List LLValue) : RValue
  | aggregate (addr : LLValue) : RValue
deriving DecidableEq

namespace RValue

def forScalars (vs : List LLValue) : RValue := .scalars vs

def forAggregate (addr : LLValue) : RValue := .aggregate addr

def isScalar : RValue → Bool
  | .scalars _ => true
  | _ => false

/-- RValue::isScalar(n). -/
def isScalarN (rv : RValue) (n : Nat) : Bool :=
  match rv with
  | .scalars vs => vs.length == n
  | _ => false

def isAggregate : RValue → Bool
  | .aggregate _ => true
  | _ => false

def getScalars : RValue → List LLValue
  | .scalars vs => vs
  | _ => []

def getAggregateAddress : RValue → LLValue
  | .aggregate a => a
  | _ => .undef .voidTy

end RValue

/-- FuncTypeInfo::load: load the function pointer from field 0 and the data
pointer from field 1 of a closure-shaped slot, and return the two-scalar
RValue (fn, data). -/
def FuncTypeInfo.load (address : Address) (s : EmitState) : RValue × EmitState :=
  let addr := address.addr
  -- Load the function.
  let (fnAddr, s) := Builder.structGEP s addr 0
  let (fn, s) := Builder.load s fnAddr address.align
  -- Load the data.  This load is offset by sizeof(void*) from the base and
  -- so may have a lesser alignment.
  let (dataAddr, s) := Builder.structGEP s addr 1
  let (data, s) := Builder.load s dataAddr
      (alignmentAtOffset address.align funcTypeInfo.storageAlignment)
  (RValue.forScalars [fn, data], s)

/-- FuncTypeInfo::store: assert the r-value is a two-scalar, then store the
function pointer to field 0 and the data pointer to field 1. -/
def FuncTypeInfo.store (rv : RValue) (address : Address) (s : EmitState) :
    Option EmitState :=
  match rv with
  | .scalars [fnVal, dataVal] =>
    let addr := address.addr
    -- Store the function pointer.
    let (fnAddr, s) := Builder.structGEP s addr 0
    let s := Builder.store s fnVal fnAddr address.align
    -- Store the data.
    let (dataAddr, s) := Builder.structGEP s addr 1
    let s := Builder.store s dataVal dataAddr
        (alignmentAtOffset address.align funcTypeInfo.storageAlignment)
    some s
  | _ => none

/-- ExplosionKind: the decomposition policy an Explosion was built under. -/
inductive ExplosionKind where
  | minimal : ExplosionKind
  | maximal : ExplosionKind
deriving DecidableEq

/-- Explosion: an ordered, claim-from-the-front sequence of low-level
values. -/
structure Explosion where
  kind : ExplosionKind
  values : List LLValue := []

namespace Explosion

/-- Explosion::add (a range of values). -/
def add (e : Explosion) (vs : List LLValue) : Explosion :=
  { e with values := e.values ++ vs }

/-- Explosion::add (one value). -/
def add1 (e : Explosion) (v : LLValue) : Explosion :=
  { e with values := e.values ++ [v] }

/-- Explosion::claimNext.  Claiming past the end is a fatal arity
violation, modelled as none. -/
def claimNext (e : Explosion) : Option (LLValue × Explosion) :=
  match e.values with
  | [] => none
  | v :: rest => some (v, { e with values := rest })

/-- Explosion::empty. -/
def empty (e : Explosion) : Bool := e.values.isEmpty

/-- Explosion::getAll: the values not yet claimed, without claiming them. -/
def getAll (e : Explosion) : List LLValue := e.values

end Explosion

/-- ArgList: the flattened low-level arguments of one call paired with the
positional attributes recorded for them. -/
structure ArgList where
  Values : Explosion
  Attrs : List AttrWithIndex := []

/-- The closed set of recognized builtin primitives. -/
inductive BuiltinValueKind where
  | Neg | Not | Add | And | FDiv | Mul | Or | SDiv | SDivExact | SRem | Sub
  | UDiv | UDivExact | URem | Xor
  | CmpEQ | CmpNE | CmpSLE | CmpSLT | CmpSGE | CmpSGT
  | CmpULE | CmpULT | CmpUGE | CmpUGT
  | FCmpOEQ | FCmpOGT | FCmpOGE | FCmpOLT | FCmpOLE | FCmpONE | FCmpORD
  | FCmpUEQ | FCmpUGT | FCmpUGE | FCmpULT | FCmpULE | FCmpUNE | FCmpUNO
deriving DecidableEq

def EmitState.freshId (s : EmitState) : Nat × EmitState :=
  (s.nextId, { s with nextId := s.nextId + 1 })

namespace Builder

/-- The result type of a named binary operation: comparisons produce i1,
arithmetic and bitwise operations produce the operand type. -/
def binopResultTy (op : String) (lhs : LLValue) : LLType :=
  if op.startsWith "ICmp" || op.startsWith "FCmp" then .prim "i1"
  else lhs.getType

/-- Create a binary operation instruction. -/
def binop (s : EmitState) (op : String) (lhs rhs : LLValue) : LLValue × EmitState :=
  let ty := binopResultTy op lhs
  let (id, s) := s.freshId
  (.inst id ty, s.emit (.binop id op lhs rhs))

/-- Create a unary operation instruction. -/
def unop (s : EmitState) (op : String) (v : LLValue) : LLValue × EmitState :=
  let (id, s) := s.freshId
  (.inst id v.getType, s.emit (.unop id op v))

/-- The component type CreateExtractValue produces. -/
def extractResultTy (agg : LLValue) (idx : Nat) : LLType :=
  match agg.getType with
  | .structTy elts => elts.getD idx .voidTy
  | _ => .voidTy

/-- CreateExtractValue: extract component idx of a first-class aggregate. -/
def extractValue (s : EmitState) (agg : LLValue) (idx : Nat) : LLValue × EmitState :=
  let (id, s) := s.freshId
  (.inst id (extractResultTy agg idx), s.emit (.extractValue id agg idx))

end Builder

/-- createFullExprAlloca / createScopeAlloca: allocate scoped local storage
of the given type and alignment and return its address (the two differ only
in lifetime scoping, which this model does not track). -/
def createAlloca (s : EmitState) (ty : LLType) (align : Nat) (name : String) :
    Address × EmitState :=
  let (id, s) := s.freshId
  (⟨.inst id (.ptr ty), align⟩, s.emit (.alloca id ty align name))

/-- The UNARY_OPERATION macro body: claim one operand, assert the explosion
is exhausted, and emit the operation. -/
def unaryOperation (op : String) (e : Explosion) (s : EmitState) :
    Option (RValue × EmitState) :=
  match e.claimNext with
  | none => none
  | some (opnd, e) =>
    if e.empty then
      let (v, s) := Builder.unop s op opnd
      some (RValue.forScalars [v], s)
    else none

/-- The BINARY_OPERATION macro body: claim two operands, assert the
explosion is exhausted, and emit the operation. -/
def binaryOperation (op : String) (e : Explosion) (s : EmitState) :
    Option (RValue × EmitState) :=
  match e.claimNext with
  | none => none
  | some (lhs, e) =>
    match e.claimNext with
    | none => none
    | some (rhs, e) =>
      if e.empty then
        let (v, s) := Builder.binop s op lhs rhs
        some (RValue.forScalars [v], s)
      else none

/-- The BINARY_ARITHMETIC_OPERATION macro body: claim two operands, assert
the explosion is exhausted, and dispatch on whether the first operand's
low-level type is floating-point. -/
def binaryArithmeticOperation (intOp fpOp : String) (e : Explosion) (s : EmitState) :
    Option (RValue × EmitState) :=
  match e.claimNext with
  | none => none
  | some (lhs, e) =>
    match e.claimNext with
    | none => none
    | some (rhs, e) =>
      if e.empty then
        if lhs.getType.isFloatingPointTy then
          let (v, s) := Builder.binop s fpOp lhs rhs
          some (RValue.forScalars [v], s)
        else
          let (v, s) := Builder.binop s intOp lhs rhs
          some (RValue.forScalars [v], s)
      else none

/-- emitBuiltinCall: assert the result schema is scalar, build the minimal
argument explosion from the already-lowered argument values, and dispatch
on the builtin kind. -/
def emitBuiltinCall (kind : BuiltinValueKind) (argValues : List LLValue)
    (resultType : TypeInfo) (s : EmitState) : Option (RValue × EmitState) :=
  if !resultType.schema.isScalar then none else
  let args : ArgList := { Values := { kind := .minimal, values := argValues } }
  match kind with
  | .Neg => unaryOperation "Neg" args.Values s
  | .Not => unaryOperation "Not" args.Values s
  | .Add => binaryArithmeticOperation "Add" "FAdd" args.Values s
  | .And => binaryOperation "And" args.Values s
  | .FDiv => binaryOperation "FDiv" args.Values s
  | .Mul => binaryArithmeticOperation "Mul" "FMul" args.Values s
  | .Or => binaryOperation "Or" args.Values s
  | .SDiv => binaryOperation "SDiv" args.Values s
  | .SDivExact => binaryOperation "ExactSDiv" args.Values s
  | .SRem => binaryOperation "SRem" args.Values s
  | .Sub => binaryArithmeticOperation "Sub" "FSub" args.Values s
  | .UDiv => binaryOperation "UDiv" args.Values s
  | .UDivExact => binaryOperation "ExactUDiv" args.Values s
  | .URem => binaryOperation "URem" args.Values s
  | .Xor => binaryOperation "Xor" args.Values s
  | .CmpEQ => binaryOperation "ICmpEQ" args.Values s
  | .CmpNE => binaryOperation "ICmpNE" args.Values s
  | .CmpSLE => binaryOperation "ICmpSLE" args.Values s
  | .CmpSLT => binaryOperation "ICmpSLT" args.Values s
  | .CmpSGE => binaryOperation "ICmpSGE" args.Values s
  | .CmpSGT => binaryOperation "ICmpSGT" args.Values s
  | .CmpULE => binaryOperation "ICmpULE" args.Values s
  | .CmpULT => binaryOperation "ICmpULT" args.Values s
  | .CmpUGE => binaryOperation "ICmpUGE" args.Values s
  | .CmpUGT => binaryOperation "ICmpUGT" args.Values s
  | .FCmpOEQ => binaryOperation "FCmpOEQ" args.Values s
  | .FCmpOGT => binaryOperation "FCmpOGT" args.Values s
  | .FCmpOGE => binaryOperation "FCmpOGE" args.Values s
  | .FCmpOLT => binaryOperation "FCmpOLT" args.Values s
  | .FCmpOLE => binaryOperation "FCmpOLE" args.Values s
  | .FCmpONE => binaryOperation "FCmpONE" args.Values s
  | .FCmpORD => binaryOperation "FCmpORD" args.Values s
  | .FCmpUEQ => binaryOperation "FCmpUEQ" args.Values s
  | .FCmpUGT => binaryOperation "FCmpUGT" args.Values s
  | .FCmpUGE => binaryOperation "FCmpUGE" args.Values s
  | .FCmpULT => binaryOperation "FCmpULT" args.Values s
  | .FCmpULE => binaryOperation "FCmpULE" args.Values s
  | .FCmpUNE => binaryOperation "FCmpUNE" args.Values s
  | .FCmpUNO => binaryOperation "FCmpUNO" args.Values s

/-- The model of an ApplyExpr as call emission sees it: whether the callee
resolved to a builtin, the values the callee expression explodes to
(produced by general expression lowering, an external collaborator), and
the values the argument expression explodes to. -/
structure ApplyExprModel where
  builtin : Option BuiltinValueKind := none
  calleeValues : List LLValue := []
  argValues : List LLValue := []

/-- The extraction loop of emitApplyExpr: CreateExtractValue at indices
i, i+1, ..., i+k-1 in ascending order. -/
def emitExtracts (agg : LLValue) : Nat → Nat → EmitState → List LLValue × EmitState
  | _, 0, s => ([], s)
  | i, k + 1, s =>
    let (scalar, s) := Builder.extractValue s agg i
    let (rest, s) := emitExtracts agg (i + 1) k s
    (scalar :: rest, s)

/-- IRGenFunction::emitApplyExpr: dispatch builtins; otherwise explode the
callee to (fn, data), build the argument list (indirect-return slot first
when the result schema is aggregate, then the flattened arguments, then the
data pointer unless it is the undef sentinel), request the matching cached
signature, cast the code pointer to it, emit the call, and rebuild the
result r-value from the return convention. -/
def emitApplyExpr (E : ApplyExprModel) (fnType : FuncTypeInfoState)
    (resultType : TypeInfo) (s : EmitState) :
    Option (RValue × EmitState × FuncTypeInfoState) :=
  -- Check for a call to a builtin.
  match E.builtin with
  | some kind =>
    match emitBuiltinCall kind E.argValues resultType s with
    | none => none
    | some (rv, s) => some (rv, s, fnType)
  | none =>
    let fnValues : Explosion := { kind := .maximal, values := E.calleeValues }
    match fnValues.claimNext with
    | none => none
    | some (fn, fnValues) =>
      match fnValues.claimNext with
      | none => none
      | some (data, fnValues) =>
        if fnValues.empty then
          -- Unless special-cased, calls are done with minimal explosion.
          let args : ArgList := { Values := { kind := .minimal } }
          -- The first argument is the implicit aggregate return slot, if
          -- required.
          let resultSchema := resultType.schema
          let (args, s) :=
            if resultSchema.isAggregate then
              let (resultSlot, s) :=
                createAlloca s resultSchema.getAggregateType
                  resultSchema.getAggregateAlignment "call.aggresult"
              ({ Values := args.Values.add1 resultSlot.addr,
                 Attrs := args.Attrs ++ [⟨1, [.structRet, .noAlias]⟩] }, s)
            else (args, s)
          -- Emit the arguments, drilling into the first level of tuple.
          let args := { args with Values := args.Values.add E.argValues }
          -- Don't bother passing a data argument if the r-value says it's
          -- undefined.
          let needsData := !data.isUndef
          let args :=
            if needsData then { args with Values := args.Values.add1 data }
            else args
          let (fnLLVMType, fnType) := fnType.getFunctionType needsData
          let fnPtrTy : LLType := .ptr (.funcTy fnLLVMType.ret fnLLVMType.params)
          let (castId, s) := s.freshId
          let fnCast := LLValue.inst castId fnPtrTy
          let s := s.emit (.bitcast castId fn fnPtrTy)
          let (callId, s) := s.freshId
          let callVal := LLValue.inst callId fnLLVMType.ret
          let s := s.emit (.callInst callId fnCast fnLLVMType args.Values.getAll args.Attrs)
          -- Build an RValue result.
          if resultSchema.isAggregate then
            match args.Values.claimNext with
            | none => none
            | some (slotAddr, _) => some (RValue.forAggregate slotAddr, s, fnType)
          else if resultSchema.getScalarTypes.length == 1 then
            some (RValue.forScalars [callVal], s, fnType)
          else
            -- This does the right thing for void returns as well.
            let (result, s) := emitExtracts callVal 0 resultSchema.getScalarTypes.length s
            some (RValue.forScalars result, s, fnType)
        else none

/-- IRGenFunction::tryEmitApplyAsAddress: Nothing when the expected result
schema is not aggregate; otherwise emit the call and return the address of
the aggregate result at the result type's storage alignment.  The outer
Option is the fatal-error channel; the inner Option is the source's
Optional of Address. -/
def tryEmitApplyAsAddress (E : ApplyExprModel) (fnType : FuncTypeInfoState)
    (resultType : TypeInfo) (s : EmitState) :
    Option (Option Address × EmitState × FuncTypeInfoState) :=
  let resultSchema := resultType.schema
  if !resultSchema.isAggregate then some (none, s, fnType)
  else
    match emitApplyExpr E fnType resultType s with
    | none => none
    | some (result, s, fnType) =>
      if result.isAggregate then
        some (some ⟨result.getAggregateAddress, resultType.storageAlignment⟩, s, fnType)
      else none

/-- A formal parameter declaration (ArgDecl): a name and a source type. -/
structure ArgDecl where
  name : String
  type : Ty

/-- The model of a FuncExpr being compiled: its function type and its
declared formal parameters, in declaration order. -/
structure FuncExprModel where
  type : Ty
  NamedArgs : List ArgDecl := []

/-- What the prologue binds: the return slot (invalid when absent) and the
local address bound to each parameter, in declaration order. -/
structure PrologueResult where
  ReturnSlot : Option Address
  Locals : List (String × Address)

/-- Modelled from the spec: the generic TypeInfo store operation for a
scalar schema (which lives in type lowering outside this file) writes each
scalar component into its struct field of the local slot in order. -/
def storeScalars (address : Address) : List LLValue → Nat → EmitState → EmitState
  | [], _, s => s
  | v :: rest, i, s =>
    let (fieldAddr, s) := Builder.structGEP s address.addr i
    let s := Builder.store s v fieldAddr address.align
    storeScalars address rest (i + 1) s

/-- The scalar-parameter loop of the prologue: consume one incoming
low-level argument per scalar slot of the parameter's schema, in order,
asserting each argument's type matches the slot type.  Walking the iterator
past arg_end is the fatal exhaustion mismatch, modelled as none. -/
def claimScalarParms (incoming : List LLValue) :
    List LLType → Nat → Option (List LLValue × Nat)
  | [], i => some ([], i)
  | parmType :: rest, i =>
    match incoming[i]? with
    | none => none
    | some v =>
      if v.getType = parmType then
        match claimScalarParms incoming rest (i + 1) with
        | none => none
        | some (vs, j) => some (v :: vs, j)
      else none

/-- The loop state while binding parameters: the incoming-argument iterator
position, the locals bound so far, and the builder state. -/
structure ParmLoopState where
  curParm : Nat
  locals : List (String × Address)
  emit : EmitState

/-- One iteration of the prologue's parameter loop: an aggregate-schema
parameter binds directly to the next incoming pointer argument; a
scalar-schema parameter gets a local scoped slot, consumes its scalar
slots from the incoming arguments, and stores them into the slot. -/
def processParm (incoming : List LLValue) (st : ParmLoopState) (parm : ArgDecl) :
    Option ParmLoopState :=
  let parmInfo := getFragileTypeInfo parm.type
  let parmSchema := parmInfo.schema
  -- Make an l-value for the parameter.
  let step1 : Option (Address × Nat × EmitState) :=
    if parmSchema.isAggregate then
      match incoming[st.curParm]? with
      | none => none
      | some v => some (⟨v, parmInfo.storageAlignment⟩, st.curParm + 1, st.emit)
    else
      let (a, s) := createAlloca st.emit parmInfo.storageType
        parmInfo.storageAlignment parm.name
      some (a, st.curParm, s)
  match step1 with
  | none => none
  | some (parmAddr, curParm, s) =>
    -- If the parameter was scalar, form an r-value from the parameters
    -- and store that.
    let step2 : Option (Nat × EmitState) :=
      if parmSchema.isScalar then
        match claimScalarParms incoming parmSchema.getScalarTypes curParm with
        | none => none
        | some (scalars, j) =>
          -- ParmInfo.store(*this, RValue::forScalars(Scalars), parmAddr)
          some (j, storeScalars parmAddr scalars 0 s)
      else some (curParm, s)
    match step2 with
    | none => none
    | some (curParm, s) =>
      some ⟨curParm, st.locals ++ [(parm.name, parmAddr)], s⟩

/-- IRGenFunction::emitPrologue: set up the entry block's alloca insertion
point, bind the return representation from the result schema (aggregate:
first incoming argument; zero scalars: no slot; otherwise a local scoped
return-value slot), bind every parameter in declaration order, and assert
that the incoming low-level arguments are exactly exhausted. -/
def emitPrologue (funcExpr : FuncExprModel) (incoming : List LLValue)
    (s : EmitState) : Option (PrologueResult × EmitState) :=
  -- Set up the alloca insertion point.
  let (_, s) := createAlloca s (.prim "i1") 1 "alloca point"
  -- (The return basic block is also created here; control flow around it
  -- is handled by the epilogue model below.)
  match funcExpr.type with
  | .func _ result =>
    -- Set up the result slot.
    let resultType := getFragileTypeInfo result
    let resultSchema := resultType.schema
    let step1 : Option (Option Address × Nat × EmitState) :=
      if resultSchema.isAggregate then
        match incoming[0]? with
        | none => none
        | some v => some (some ⟨v, resultType.storageAlignment⟩, 1, s)
      else if resultSchema.isScalarN 0 then
        some (none, 0, s)
      else
        let (slot, s) := createAlloca s resultType.storageType
          resultType.storageAlignment "return_value"
        some (some slot, 0, s)
    match step1 with
    | none => none
    | some (returnSlot, curParm, s) =>
      -- Set up the parameters.
      match funcExpr.NamedArgs.foldlM (processParm incoming) ⟨curParm, [], s⟩ with
      | none => none
      | some final =>
        -- assert(CurParm == CurFn->arg_end())
        if final.curParm = incoming.length then
          some (⟨returnSlot, final.locals⟩, final.emit)
        else none
  | _ => none

/-- The observable steps of the epilogue, in emission order. -/
inductive EpilogueEvent where
  | eraseAllocaIP : EpilogueEvent
  | eraseReturnBB : EpilogueEvent
  | brToReturnBB : EpilogueEvent
  | setInsertToReturnBB : EpilogueEvent
  | setInsertToPred : EpilogueEvent
  | eraseBranch : EpilogueEvent
  | loadReturnSlot : EpilogueEvent
  | insertValueAt (idx : Nat) : EpilogueEvent
  | retVoid : EpilogueEvent
  | retScalar : EpilogueEvent
  | retAggregate : EpilogueEvent
deriving DecidableEq

/-- The return-emission tail of the epilogue: void return for aggregate and
zero-scalar results; otherwise load the local return slot and return its
single value directly, or assemble an aggregate-of-scalars return value by
inserting each component at its index in order. -/
def epilogueReturnEvents (resultSchema : RValueSchema) (loadedRV : RValue) :
    List EpilogueEvent :=
  if resultSchema.isAggregate then [.retVoid]
  else if resultSchema.isScalarN 0 then [.retVoid]
  else
    [.loadReturnSlot] ++
    (if loadedRV.isScalarN 1 then [.retScalar]
     else (List.range loadedRV.getScalars.length).map .insertValueAt
       ++ [.retAggregate])

/-- IRGenFunction::emitEpilogue: destroy the alloca insertion point, then
resolve control flow into the return block by its use count and the
validity of the current insertion point, then emit the return.  Inputs:
the number of branch edges into the return block, whether the current
insertion point is reachable, the result schema, and the r-value the
return-slot load produces. -/
def emitEpilogue (returnBBUses : Nat) (hasValidIP : Bool)
    (resultSchema : RValueSchema) (loadedRV : RValue) : List EpilogueEvent :=
  -- Destroy the alloca insertion point.
  [.eraseAllocaIP] ++
  -- If there are no edges to the return block, we never want to emit it.
  (if returnBBUses = 0 then
    [.eraseReturnBB] ++
    -- If the current IP is unreachable then so is the entire epilogue.
    (if !hasValidIP then [] else epilogueReturnEvents resultSchema loadedRV)
  -- Otherwise, branch to it if the current IP is reachable.
  else if hasValidIP then
    [.brToReturnBB, .setInsertToReturnBB]
      ++ epilogueReturnEvents resultSchema loadedRV
  -- Otherwise, if there is exactly one use of the return block, merge it
  -- into its predecessor.
  else if returnBBUses = 1 then
    [.setInsertToPred, .eraseBranch, .eraseReturnBB]
      ++ epilogueReturnEvents resultSchema loadedRV
  -- Otherwise, just move the IP to the return block.
  else
    [.setInsertToReturnBB] ++ epilogueReturnEvents resultSchema loadedRV)

/-! Sample lowered types used to instantiate theorems on concrete inputs. -/

/-- A one-scalar integer type. -/
def infoI64 : TypeInfo := ⟨.prim "i64", 8, .scalars [.prim "i64"]⟩

def tyI64 : Ty := .base infoI64

/-- A zero-scalar (empty tuple) type. -/
def infoUnit : TypeInfo := ⟨.structTy [], 1, .scalars []⟩

def tyUnit : Ty := .base infoUnit

/-- A two-scalar type. -/
def infoPair : TypeInfo :=
  ⟨.structTy [.prim "i64", .prim "i1"], 8, .scalars [.prim "i64", .prim "i1"]⟩

def tyPair : Ty := .base infoPair

/-- An aggregate-by-address type. -/
def infoAgg : TypeInfo := ⟨.prim "T", 4, .aggregate (.prim "T") 4⟩

def tyAgg : Ty := .base infoAgg

/-- A one-scalar float type. -/
def infoFloat : TypeInfo := ⟨.prim "float", 4, .scalars [.prim "float"]⟩

def tyFloat : Ty := .base infoFloat

/-- The low-level argument types one argument group contributes, on its
own. -/
def argTypesOf (ty : Ty) : List LLType :=
  match (getFragileTypeInfo ty).schema with
  | .scalars ts => ts
  | .aggregate t _ => [.ptr t]

/-- The low-level argument types a flattened tuple input contributes. -/
def tupleArgTypes (fields : List Ty) : List LLType :=
  fields.foldl (fun acc f => addArgType f acc) []

/-- The flattened low-level argument types a function input contributes:
one level of tuple drill-down, each group classified by its schema. -/
def flattenedArgTypes (input : Ty) : List LLType :=
  match input with
  | .tuple _ fields => tupleArgTypes fields
  | _ => argTypesOf input

/-- How many incoming low-level arguments one parameter consumes in the
prologue: one pointer for an aggregate schema, one per scalar slot
otherwise. -/
def schemaArgCount (ty : Ty) : Nat :=
  match (getFragileTypeInfo ty).schema with
  | .aggregate _ _ => 1
  | .scalars ts => ts.length

/-- The number of incoming low-level arguments the prologue must consume:
one leading indirect-return pointer when the result schema is aggregate,
plus the slots of every declared parameter. -/
def expectedLowLevelArgCount (funcExpr : FuncExprModel) : Nat :=
  match funcExpr.type with
  | .func _ result =>
    (if (getFragileTypeInfo result).schema.isAggregate then 1 else 0)
      + (funcExpr.NamedArgs.map (fun p => schemaArgCount p.type)).sum
  | _ => 0

theorem addArgType_eq (ty : Ty) (acc : List LLType) :
    addArgType ty acc = acc ++ argTypesOf ty := by
  unfold addArgType argTypesOf
  cases (getFragileTypeInfo ty).schema <;> simp

theorem foldl_addArgType (fields : List Ty) (acc : List LLType) :
    fields.foldl (fun a f => addArgType f a) acc = acc ++ tupleArgTypes fields := by
  induction fields generalizing acc with
  | nil => simp [tupleArgTypes]
  | cons f fs ih =>
    show fs.foldl (fun a g => addArgType g a) (addArgType f acc) = _
    have h2 : tupleArgTypes (f :: fs) = argTypesOf f ++ tupleArgTypes fs := by
      show fs.foldl (fun a g => addArgType g a) (addArgType f []) = _
      rw [ih, addArgType_eq]
      simp
    rw [ih, h2, addArgType_eq]
    simp

theorem foldl_append_argTypesOf (fields : List Ty) (acc : List LLType) :
    List.foldl (fun a f => a ++ argTypesOf f) acc fields = acc ++ tupleArgTypes fields := by
  induction fields generalizing acc with
  | nil => simp [tupleArgTypes]
  | cons f fs ih =>
    show List.foldl _ (acc ++ argTypesOf f) fs = _
    have h2 : tupleArgTypes (f :: fs) = argTypesOf f ++ tupleArgTypes fs := by
      show fs.foldl (fun a g => addArgType g a) (addArgType f []) = _
      rw [foldl_addArgType, addArgType_eq]
      simp
    rw [ih, h2]
    simp

/-- The parameter list of a derived signature: the indirect-return pointer
(for an aggregate result schema), then the flattened input argument types,
then the context pointer (when requested). -/
theorem computeFunctionType_params (input result : Ty) (needsData : Bool) :
    (computeFunctionType input result needsData).params
      = (match (getFragileTypeInfo result).schema with
         | .aggregate t _ => [LLType.ptr t]
         | .scalars _ => [])
        ++ flattenedArgTypes input ++ (if needsData then [Int8PtrTy] else []) := by
  unfold computeFunctionType flattenedArgTypes
  cases hs : (getFragileTypeInfo result).schema with
  | aggregate t a =>
    cases needsData <;> cases input <;>
      simp [foldl_addArgType, foldl_append_argTypesOf, addArgType_eq, List.append_assoc]
  | scalars ts =>
    match ts with
    | [] =>
      cases needsData <;> cases input <;>
        simp [foldl_addArgType, foldl_append_argTypesOf, addArgType_eq]
    | [t] =>
      cases needsData <;> cases input <;>
        simp [foldl_addArgType, foldl_append_argTypesOf, addArgType_eq]
    | t1 :: t2 :: rest =>
      cases needsData <;> cases input <;>
        simp [foldl_addArgType, foldl_append_argTypesOf, addArgType_eq]

/-- The return type of a derived signature, by the four-way rule on the
result schema. -/
theorem computeFunctionType_ret (input result : Ty) (needsData : Bool) :
    (computeFunctionType input result needsData).ret
      = (match (getFragileTypeInfo result).schema with
         | .aggregate _ _ => LLType.voidTy
         | .scalars [] => LLType.voidTy
         | .scalars [t] => t
         | .scalars ts => LLType.structTy ts) := by
  unfold computeFunctionType
  cases hs : (getFragileTypeInfo result).schema with
  | aggregate t a => simp
  | scalars ts =>
    match ts with
    | [] => simp
    | [t] => simp
    | t1 :: t2 :: rest => simp

/-- C1: the derived low-level signature's return type follows the four-way
rule on the result type's schema: an aggregate result gives a void return
type with a pointer to the aggregate type prepended as the first parameter;
zero scalar slots give void; one scalar slot gives that scalar's type; N>1
scalar slots give a first-class aggregate of those N primitive types in
schema order. -/
theorem c1_getFunctionType_return_rule (input result : Ty) (needsData : Bool) :
    (∀ t a, (getFragileTypeInfo result).schema = .aggregate t a →
      (computeFunctionType input result needsData).ret = .voidTy ∧
      (computeFunctionType input result needsData).params.head? = some (.ptr t)) ∧
    ((getFragileTypeInfo result).schema = .scalars [] →
      (computeFunctionType input result needsData).ret = .voidTy) ∧
    (∀ t, (getFragileTypeInfo result).schema = .scalars [t] →
      (computeFunctionType input result needsData).ret = t) ∧
    (∀ ts, (getFragileTypeInfo result).schema = .scalars ts → 2 ≤ ts.length →
      (computeFunctionType input result needsData).ret = .structTy ts) := by
  refine ⟨fun t a h => ⟨?_, ?_⟩, fun h => ?_, fun t h => ?_, fun ts h hlen => ?_⟩
  · rw [computeFunctionType_ret, h]
  · rw [computeFunctionType_params, h]
    simp
  · rw [computeFunctionType_ret, h]
  · rw [computeFunctionType_ret, h]
  · rw [computeFunctionType_ret, h]
    match ts, hlen with
    | t1 :: t2 :: rest, _ => simp

/-- Witness for C1: the four cases of the rule, at concrete function
types. -/
theorem c1_witness :
    (computeFunctionType tyUnit tyAgg false).ret = .voidTy ∧
    (computeFunctionType tyUnit tyAgg false).params.head? = some (.ptr (.prim "T")) ∧
    (computeFunctionType tyI64 tyUnit false).ret = .voidTy ∧
    (computeFunctionType tyUnit tyI64 false).ret = .prim "i64" ∧
    (computeFunctionType tyUnit tyPair false).ret
      = .structTy [.prim "i64", .prim "i1"] :=
  ⟨((c1_getFunctionType_return_rule tyUnit tyAgg false).1 (.prim "T") 4 rfl).1,
   ((c1_getFunctionType_return_rule tyUnit tyAgg false).1 (.prim "T") 4 rfl).2,
   (c1_getFunctionType_return_rule tyI64 tyUnit false).2.1 rfl,
   (c1_getFunctionType_return_rule tyUnit tyI64 false).2.2.1 (.prim "i64") rfl,
   (c1_getFunctionType_return_rule tyUnit tyPair false).2.2.2
     [.prim "i64", .prim "i1"] rfl (by decide)⟩

/-- emitExtracts in closed form: the emitted instructions take fresh ids
from the state counter and extract at ascending indices. -/
theorem emitExtracts_eq (agg : LLValue) (k : Nat) :
    ∀ (i : Nat) (s : EmitState),
    emitExtracts agg i k s
      = (List.zipWith (fun id idx => LLValue.inst id (Builder.extractResultTy agg idx))
           (List.range' s.nextId k) (List.range' i k),
         { s with nextId := s.nextId + k,
                  instrs := s.instrs ++
                    List.zipWith (fun id idx => Instr.extractValue id agg idx)
                      (List.range' s.nextId k) (List.range' i k) }) := by
  induction k with
  | zero => intro i s; simp [emitExtracts]
  | succ k ih =>
    intro i s
    simp only [emitExtracts, Builder.extractValue, EmitState.freshId, EmitState.emit]
    rw [ih]
    simp [List.range'_succ, List.append_assoc]
    omega

theorem zipWith_range'_eq_map {α : Type} (f : Nat → Nat → α) (k : Nat) :
    ∀ (a b : Nat),
    List.zipWith f (List.range' a k) (List.range' b k)
      = (List.range k).map (fun j => f (a + j) (b + j)) := by
  induction k with
  | zero => intro a b; simp
  | succ k ih =>
    intro a b
    rw [List.range'_succ, List.range'_succ, List.zipWith_cons_cons, ih,
      List.range_succ_eq_map]
    simp only [List.map_cons, List.map_map, Nat.add_zero]
    refine congrArg₂ _ rfl ?_
    refine List.map_congr_left fun j _ => ?_
    simp only [Function.comp]
    congr 1 <;> omega

/-- emitApplyExpr on the general path with an aggregate result schema, in
closed form: allocate the indirect-return slot, push it first and tag it,
push the flattened arguments and (unless elided) the data pointer, cast the
code pointer to the selected signature, call, and return the slot's address
as the aggregate result. -/
theorem emitApplyExpr_aggregate (E : ApplyExprModel) (fnType : FuncTypeInfoState)
    (resultType : TypeInfo) (s : EmitState) (fn data : LLValue) (t : LLType) (a : Nat)
    (hb : E.builtin = none) (hc : E.calleeValues = [fn, data])
    (hagg : resultType.schema = .aggregate t a) :
    emitApplyExpr E fnType resultType s
      = some (RValue.aggregate (.inst s.nextId (.ptr t)),
          { nextId := s.nextId + 3,
            instrs := s.instrs ++
              [.alloca s.nextId t a "call.aggresult",
               .bitcast (s.nextId + 1) fn
                 (.ptr (.funcTy (fnType.getFunctionType (!data.isUndef)).1.ret
                   (fnType.getFunctionType (!data.isUndef)).1.params)),
               .callInst (s.nextId + 2)
                 (.inst (s.nextId + 1)
                   (.ptr (.funcTy (fnType.getFunctionType (!data.isUndef)).1.ret
                     (fnType.getFunctionType (!data.isUndef)).1.params)))
                 (fnType.getFunctionType (!data.isUndef)).1
                 (LLValue.inst s.nextId (.ptr t)
                   :: (E.argValues ++ if data.isUndef then [] else [data]))
                 [⟨1, [.structRet, .noAlias]⟩]],
            mem := s.mem },
          (fnType.getFunctionType (!data.isUndef)).2) := by
  rcases hsig : fnType.getFunctionType (!data.isUndef) with ⟨sig, ft2⟩
  cases hu : data.isUndef <;>
    simp_all [emitApplyExpr, Explosion.claimNext, Explosion.empty, Explosion.add,
      Explosion.add1, Explosion.getAll, createAlloca, EmitState.freshId,
      EmitState.emit, RValueSchema.isAggregate, RValueSchema.getAggregateType,
      RValueSchema.getAggregateAlignment, RValue.forAggregate]

/-- emitApplyExpr on the general path with a one-scalar result schema, in
closed form: no slot, no extraction; the call's direct return value is the
result. -/
theorem emitApplyExpr_oneScalar (E : ApplyExprModel) (fnType : FuncTypeInfoState)
    (resultType : TypeInfo) (s : EmitState) (fn data : LLValue) (t : LLType)
    (hb : E.builtin = none) (hc : E.calleeValues = [fn, data])
    (hone : resultType.schema = .scalars [t]) :
    emitApplyExpr E fnType resultType s
      = some (RValue.scalars [.inst (s.nextId + 1) (fnType.getFunctionType (!data.isUndef)).1.ret],
          { nextId := s.nextId + 2,
            instrs := s.instrs ++
              [.bitcast s.nextId fn
                 (.ptr (.funcTy (fnType.getFunctionType (!data.isUndef)).1.ret
                   (fnType.getFunctionType (!data.isUndef)).1.params)),
               .callInst (s.nextId + 1)
                 (.inst s.nextId
                   (.ptr (.funcTy (fnType.getFunctionType (!data.isUndef)).1.ret
                     (fnType.getFunctionType (!data.isUndef)).1.params)))
                 (fnType.getFunctionType (!data.isUndef)).1
                 (E.argValues ++ if data.isUndef then [] else [data])
                 []],
            mem := s.mem },
          (fnType.getFunctionType (!data.isUndef)).2) := by
  rcases hsig : fnType.getFunctionType (!data.isUndef) with ⟨sig, ft2⟩
  cases hu : data.isUndef <;>
    simp_all [emitApplyExpr, Explosion.claimNext, Explosion.empty, Explosion.add,
      Explosion.add1, Explosion.getAll, EmitState.freshId, EmitState.emit,
      RValueSchema.isAggregate, RValueSchema.getScalarTypes, RValue.forScalars]

/-- emitApplyExpr on the general path with a scalar result schema of N ≠ 1
slots, in closed form: after the call, extract components 0..N-1 in
ascending order, with fresh ids continuing the counter. -/
theorem emitApplyExpr_scalars (E : ApplyExprModel) (fnType : FuncTypeInfoState)
    (resultType : TypeInfo) (s : EmitState) (fn data : LLValue) (ts : List LLType)
    (hb : E.builtin = none) (hc : E.calleeValues = [fn, data])
    (hts : resultType.schema = .scalars ts) (hn : ts.length ≠ 1) :
    emitApplyExpr E fnType resultType s
      = some (RValue.scalars ((List.range ts.length).map (fun j =>
            LLValue.inst (s.nextId + 2 + j)
              (Builder.extractResultTy
                (.inst (s.nextId + 1) (fnType.getFunctionType (!data.isUndef)).1.ret) j))),
          { nextId := s.nextId + 2 + ts.length,
            instrs := s.instrs ++
              [.bitcast s.nextId fn
                 (.ptr (.funcTy (fnType.getFunctionType (!data.isUndef)).1.ret
                   (fnType.getFunctionType (!data.isUndef)).1.params)),
               .callInst (s.nextId + 1)
                 (.inst s.nextId
                   (.ptr (.funcTy (fnType.getFunctionType (!data.isUndef)).1.ret
                     (fnType.getFunctionType (!data.isUndef)).1.params)))
                 (fnType.getFunctionType (!data.isUndef)).1
                 (E.argValues ++ if data.isUndef then [] else [data])
                 []]
              ++ (List.range ts.length).map (fun j =>
                   Instr.extractValue (s.nextId + 2 + j)
                     (.inst (s.nextId + 1) (fnType.getFunctionType (!data.isUndef)).1.ret) j),
            mem := s.mem },
          (fnType.getFunctionType (!data.isUndef)).2) := by
  rcases hsig : fnType.getFunctionType (!data.isUndef) with ⟨sig, ft2⟩
  cases hu : data.isUndef <;>
    simp_all [emitApplyExpr, Explosion.claimNext, Explosion.empty, Explosion.add,
      Explosion.add1, Explosion.getAll, EmitState.freshId, EmitState.emit,
      RValueSchema.isAggregate, RValueSchema.getScalarTypes, RValue.forScalars,
      emitExtracts_eq, zipWith_range'_eq_map]

/-- C2: on the general call path, a callee whose second scalar is the undef
sentinel selects the withoutData signature and the emitted argument list is
exactly the (optional indirect-return slot plus) flattened explicit
arguments with no trailing context argument; any other second scalar
selects withData and appends exactly that value, placed last. -/
theorem c2_context_elision (E : ApplyExprModel) (fnType : FuncTypeInfoState)
    (resultType : TypeInfo) (s : EmitState) (fn data : LLValue)
    (hb : E.builtin = none) (hc : E.calleeValues = [fn, data]) :
    ∃ rv s2 ft2 callId fnCast aggSlotArgs attrList,
      emitApplyExpr E fnType resultType s = some (rv, s2, ft2) ∧
      (if resultType.schema.isAggregate then aggSlotArgs.length = 1
       else aggSlotArgs = []) ∧
      Instr.callInst callId fnCast (fnType.getFunctionType (!data.isUndef)).1
        (aggSlotArgs ++ E.argValues ++ (if data.isUndef then [] else [data]))
        attrList ∈ s2.instrs := by
  cases hsch : resultType.schema with
  | aggregate t a =>
    refine ⟨_, _, _, s.nextId + 2,
      .inst (s.nextId + 1)
        (.ptr (.funcTy (fnType.getFunctionType (!data.isUndef)).1.ret
          (fnType.getFunctionType (!data.isUndef)).1.params)),
      [LLValue.inst s.nextId (.ptr t)], [⟨1, [.structRet, .noAlias]⟩],
      emitApplyExpr_aggregate E fnType resultType s fn data t a hb hc hsch,
      by simp [RValueSchema.isAggregate], ?_⟩
    simp
  | scalars ts =>
    by_cases h1 : ts.length = 1
    · obtain ⟨t, rfl⟩ := List.length_eq_one.mp h1
      refine ⟨_, _, _, s.nextId + 1,
        .inst s.nextId
          (.ptr (.funcTy (fnType.getFunctionType (!data.isUndef)).1.ret
            (fnType.getFunctionType (!data.isUndef)).1.params)),
        [], [],
        emitApplyExpr_oneScalar E fnType resultType s fn data t hb hc hsch,
        by simp [RValueSchema.isAggregate], ?_⟩
      simp
    · refine ⟨_, _, _, s.nextId + 1,
        .inst s.nextId
          (.ptr (.funcTy (fnType.getFunctionType (!data.isUndef)).1.ret
            (fnType.getFunctionType (!data.isUndef)).1.params)),
        [], [],
        emitApplyExpr_scalars E fnType resultType s fn data ts hb hc hsch h1,
        by simp [RValueSchema.isAggregate], ?_⟩
      simp

/-- Witness for C2: a concrete context-free call (second scalar undef) and
a concrete call with a live context pointer. -/
theorem c2_witness :
    (∃ rv s2 ft2 callId fnCast aggSlotArgs attrList,
      emitApplyExpr
        { builtin := none,
          calleeValues := [.global "f" Int8PtrTy, .undef Int8PtrTy],
          argValues := [.arg 0 (.prim "i64")] }
        ⟨tyI64, tyI64, none, none⟩ infoI64 {} = some (rv, s2, ft2) ∧
      (if infoI64.schema.isAggregate then aggSlotArgs.length = 1
       else aggSlotArgs = []) ∧
      Instr.callInst callId fnCast
        ((⟨tyI64, tyI64, none, none⟩ : FuncTypeInfoState).getFunctionType
          (!(LLValue.undef Int8PtrTy).isUndef)).1
        (aggSlotArgs ++ [.arg 0 (.prim "i64")]
          ++ (if (LLValue.undef Int8PtrTy).isUndef then [] else [.undef Int8PtrTy]))
        attrList ∈ s2.instrs) ∧
    (∃ rv s2 ft2 callId fnCast aggSlotArgs attrList,
      emitApplyExpr
        { builtin := none,
          calleeValues := [.global "f" Int8PtrTy, .global "ctx" Int8PtrTy],
          argValues := [.arg 0 (.prim "i64")] }
        ⟨tyI64, tyI64, none, none⟩ infoI64 {} = some (rv, s2, ft2) ∧
      (if infoI64.schema.isAggregate then aggSlotArgs.length = 1
       else aggSlotArgs = []) ∧
      Instr.callInst callId fnCast
        ((⟨tyI64, tyI64, none, none⟩ : FuncTypeInfoState).getFunctionType
          (!(LLValue.global "ctx" Int8PtrTy).isUndef)).1
        (aggSlotArgs ++ [.arg 0 (.prim "i64")]
          ++ (if (LLValue.global "ctx" Int8PtrTy).isUndef then []
              else [.global "ctx" Int8PtrTy]))
        attrList ∈ s2.instrs) :=
  ⟨c2_context_elision _ _ infoI64 {} _ _ rfl rfl,
   c2_context_elision _ _ infoI64 {} _ _ rfl rfl⟩

/-- C3: result reconstruction.  N≥2 scalar slots: the result scalars are
the components extracted from the call's aggregate return at indices
0..N-1 in ascending order with no gaps or reordering.  N=1: the call's
direct return value, with no extraction emitted.  Aggregate: exactly one
pointer argument (the pre-allocated slot's address) is prepended and
tagged struct-return/non-aliasing, and the aggregate result's address is
that slot's address. -/
theorem c3_result_reconstruction (E : ApplyExprModel) (fnType : FuncTypeInfoState)
    (resultType : TypeInfo) (s : EmitState) (fn data : LLValue)
    (hb : E.builtin = none) (hc : E.calleeValues = [fn, data]) :
    (∀ ts, resultType.schema = .scalars ts → 2 ≤ ts.length →
      ∃ (base : EmitState) (callVal : LLValue) (vals : List LLValue)
        (ft2 : FuncTypeInfoState),
        emitApplyExpr E fnType resultType s
          = some (RValue.scalars vals,
              { base with
                nextId := base.nextId + ts.length,
                instrs := base.instrs ++ (List.range ts.length).map
                    (fun j => Instr.extractValue (base.nextId + j) callVal j) },
              ft2) ∧
        vals = (List.range ts.length).map
          (fun j => LLValue.inst (base.nextId + j) (Builder.extractResultTy callVal j)) ∧
        ∃ callId fnCast argsAll attrList,
          callVal = LLValue.inst callId (fnType.getFunctionType (!data.isUndef)).1.ret ∧
          Instr.callInst callId fnCast (fnType.getFunctionType (!data.isUndef)).1
            argsAll attrList ∈ base.instrs) ∧
    (∀ t, resultType.schema = .scalars [t] →
      ∃ callId s2 ft2,
        emitApplyExpr E fnType resultType s
          = some (RValue.scalars
              [LLValue.inst callId (fnType.getFunctionType (!data.isUndef)).1.ret],
              s2, ft2) ∧
        Instr.callInst callId (.inst s.nextId
            (.ptr (.funcTy (fnType.getFunctionType (!data.isUndef)).1.ret
              (fnType.getFunctionType (!data.isUndef)).1.params)))
          (fnType.getFunctionType (!data.isUndef)).1
          (E.argValues ++ if data.isUndef then [] else [data]) [] ∈ s2.instrs ∧
        ∀ i ∈ s2.instrs.drop s.instrs.length, ∀ id agg idx,
          i ≠ Instr.extractValue id agg idx) ∧
    (∀ t a, resultType.schema = .aggregate t a →
      ∃ slotId s2 ft2 callId fnCast,
        emitApplyExpr E fnType resultType s
          = some (RValue.aggregate (.inst slotId (.ptr t)), s2, ft2) ∧
        Instr.alloca slotId t a "call.aggresult" ∈ s2.instrs ∧
        Instr.callInst callId fnCast (fnType.getFunctionType (!data.isUndef)).1
          (LLValue.inst slotId (.ptr t)
            :: (E.argValues ++ if data.isUndef then [] else [data]))
          [⟨1, [.structRet, .noAlias]⟩] ∈ s2.instrs) := by
  refine ⟨fun ts hts hlen => ?_, fun t hone => ?_, fun t a hagg => ?_⟩
  · have hn : ts.length ≠ 1 := by omega
    refine ⟨{ nextId := s.nextId + 2,
              instrs := s.instrs ++
                [.bitcast s.nextId fn
                   (.ptr (.funcTy (fnType.getFunctionType (!data.isUndef)).1.ret
                     (fnType.getFunctionType (!data.isUndef)).1.params)),
                 .callInst (s.nextId + 1)
                   (.inst s.nextId
                     (.ptr (.funcTy (fnType.getFunctionType (!data.isUndef)).1.ret
                       (fnType.getFunctionType (!data.isUndef)).1.params)))
                   (fnType.getFunctionType (!data.isUndef)).1
                   (E.argValues ++ if data.isUndef then [] else [data]) []],
              mem := s.mem },
            .inst (s.nextId + 1) (fnType.getFunctionType (!data.isUndef)).1.ret,
            (List.range ts.length).map (fun j =>
              LLValue.inst (s.nextId + 2 + j)
                (Builder.extractResultTy
                  (.inst (s.nextId + 1) (fnType.getFunctionType (!data.isUndef)).1.ret) j)),
            (fnType.getFunctionType (!data.isUndef)).2, ?_, rfl, s.nextId + 1,
            .inst s.nextId
              (.ptr (.funcTy (fnType.getFunctionType (!data.isUndef)).1.ret
                (fnType.getFunctionType (!data.isUndef)).1.params)),
            E.argValues ++ (if data.isUndef then [] else [data]), [],
            rfl, by simp⟩
    rw [emitApplyExpr_scalars E fnType resultType s fn data ts hb hc hts hn]
  · refine ⟨s.nextId + 1, _, _,
      emitApplyExpr_oneScalar E fnType resultType s fn data t hb hc hone,
      by simp, ?_⟩
    intro i hi id agg idx
    simp [List.drop_left] at hi
    rcases hi with h | h <;> simp [h]
  · refine ⟨s.nextId, _, _, s.nextId + 2,
      .inst (s.nextId + 1)
        (.ptr (.funcTy (fnType.getFunctionType (!data.isUndef)).1.ret
          (fnType.getFunctionType (!data.isUndef)).1.params)),
      emitApplyExpr_aggregate E fnType resultType s fn data t a hb hc hagg,
      by simp, by simp⟩

/-- Witness for C3: a concrete two-scalar-result call, a concrete
one-scalar-result call, and a concrete aggregate-result call. -/
theorem c3_witness :
    (∃ (base : EmitState) (callVal : LLValue) (vals : List LLValue)
        (ft2 : FuncTypeInfoState),
      emitApplyExpr
        { builtin := none,
          calleeValues := [.global "f" Int8PtrTy, .undef Int8PtrTy],
          argValues := [] }
        ⟨tyUnit, tyPair, none, none⟩ infoPair {} = some (RValue.scalars vals,
          { base with
            nextId := base.nextId + 2,
            instrs := base.instrs ++ (List.range 2).map
                (fun j => Instr.extractValue (base.nextId + j) callVal j) },
          ft2) ∧
      vals = (List.range 2).map
        (fun j => LLValue.inst (base.nextId + j) (Builder.extractResultTy callVal j)) ∧
      ∃ callId fnCast argsAll attrList,
        callVal = LLValue.inst callId
          ((⟨tyUnit, tyPair, none, none⟩ : FuncTypeInfoState).getFunctionType
            (!(LLValue.undef Int8PtrTy).isUndef)).1.ret ∧
        Instr.callInst callId fnCast
          ((⟨tyUnit, tyPair, none, none⟩ : FuncTypeInfoState).getFunctionType
            (!(LLValue.undef Int8PtrTy).isUndef)).1
          argsAll attrList ∈ base.instrs) ∧
    (∃ slotId s2 ft2 callId fnCast,
      emitApplyExpr
        { builtin := none,
          calleeValues := [.global "g" Int8PtrTy, .undef Int8PtrTy],
          argValues := [] }
        ⟨tyUnit, tyAgg, none, none⟩ infoAgg {} = some (RValue.aggregate (.inst slotId (.ptr (.prim "T"))), s2, ft2) ∧
      Instr.alloca slotId (.prim "T") 4 "call.aggresult" ∈ s2.instrs ∧
      Instr.callInst callId fnCast
        ((⟨tyUnit, tyAgg, none, none⟩ : FuncTypeInfoState).getFunctionType
          (!(LLValue.undef Int8PtrTy).isUndef)).1
        (LLValue.inst slotId (.ptr (.prim "T"))
          :: ([] ++ if (LLValue.undef Int8PtrTy).isUndef then []
              else [LLValue.undef Int8PtrTy]))
        [⟨1, [.structRet, .noAlias]⟩] ∈ s2.instrs) :=
  ⟨by
    have h := (c3_result_reconstruction
      { builtin := none,
        calleeValues := [.global "f" Int8PtrTy, .undef Int8PtrTy],
        argValues := [] }
      ⟨tyUnit, tyPair, none, none⟩ infoPair {} _ _ rfl rfl).1
      [.prim "i64", .prim "i1"] rfl (by decide)
    simpa using h,
   by
    have h := (c3_result_reconstruction
      { builtin := none,
        calleeValues := [.global "g" Int8PtrTy, .undef Int8PtrTy],
        argValues := [] }
      ⟨tyUnit, tyAgg, none, none⟩ infoAgg {} _ _ rfl rfl).2.2
      (.prim "T") 4 rfl
    simpa using h⟩

/-- C10: tryEmitApplyAsAddress returns Nothing exactly when the expected
result schema is not aggregate; when the schema is aggregate it emits the
call and returns the address of the aggregate result r-value at the result
type's storage alignment. -/
theorem c10_try_emit_apply_as_address (E : ApplyExprModel)
    (fnType : FuncTypeInfoState) (resultType : TypeInfo) (s : EmitState)
    (fn data : LLValue)
    (hb : E.builtin = none) (hc : E.calleeValues = [fn, data]) :
    (resultType.schema.isAggregate = false →
      tryEmitApplyAsAddress E fnType resultType s = some (none, s, fnType)) ∧
    (∀ t a, resultType.schema = .aggregate t a →
      ∃ slotAddr s2 ft2,
        tryEmitApplyAsAddress E fnType resultType s
          = some (some ⟨slotAddr, resultType.storageAlignment⟩, s2, ft2) ∧
        emitApplyExpr E fnType resultType s
          = some (RValue.aggregate slotAddr, s2, ft2)) := by
  constructor
  · intro h
    simp [tryEmitApplyAsAddress, h]
  · intro t a hagg
    refine ⟨.inst s.nextId (.ptr t), _, _, ?_,
      emitApplyExpr_aggregate E fnType resultType s fn data t a hb hc hagg⟩
    simp [tryEmitApplyAsAddress, hagg, RValueSchema.isAggregate,
      emitApplyExpr_aggregate E fnType resultType s fn data t a hb hc hagg,
      RValue.isAggregate, RValue.getAggregateAddress]

/-- Witness for C10: a concrete scalar-result call returns Nothing; a
concrete aggregate-result call returns the slot address. -/
theorem c10_witness :
    tryEmitApplyAsAddress
      { builtin := none,
        calleeValues := [.global "f" Int8PtrTy, .undef Int8PtrTy],
        argValues := [] }
      ⟨tyUnit, tyI64, none, none⟩ infoI64 {}
        = some (none, {}, ⟨tyUnit, tyI64, none, none⟩) ∧
    (∃ slotAddr s2 ft2,
      tryEmitApplyAsAddress
        { builtin := none,
          calleeValues := [.global "g" Int8PtrTy, .undef Int8PtrTy],
          argValues := [] }
        ⟨tyUnit, tyAgg, none, none⟩ infoAgg {}
          = some (some ⟨slotAddr, infoAgg.storageAlignment⟩, s2, ft2) ∧
      emitApplyExpr
        { builtin := none,
          calleeValues := [.global "g" Int8PtrTy, .undef Int8PtrTy],
          argValues := [] }
        ⟨tyUnit, tyAgg, none, none⟩ infoAgg {}
          = some (RValue.aggregate slotAddr, s2, ft2)) :=
  ⟨(c10_try_emit_apply_as_address _ ⟨tyUnit, tyI64, none, none⟩ infoI64 {}
      (.global "f" Int8PtrTy) (.undef Int8PtrTy) rfl rfl).1 (by decide),
   (c10_try_emit_apply_as_address _ ⟨tyUnit, tyAgg, none, none⟩ infoAgg {}
      (.global "g" Int8PtrTy) (.undef Int8PtrTy) rfl rfl).2
     (.prim "T") 4 rfl⟩

/-- C4: signature memoization.  Calling getFunctionType twice with the same
flag returns the same signature and leaves the state unchanged the second
time; computing the withData variant neither invalidates nor recomputes the
cached withoutData variant and vice versa. -/
theorem c4_signature_memoization (s : FuncTypeInfoState) (needsData : Bool) :
    ((s.getFunctionType needsData).2.getFunctionType needsData).1
        = (s.getFunctionType needsData).1 ∧
    ((s.getFunctionType needsData).2.getFunctionType needsData).2
        = (s.getFunctionType needsData).2 ∧
    (s.getFunctionType true).2.FunctionTypeWithoutData = s.FunctionTypeWithoutData ∧
    (s.getFunctionType false).2.FunctionTypeWithData = s.FunctionTypeWithData ∧
    ((s.getFunctionType true).2.getFunctionType false).1
        = (s.getFunctionType false).1 ∧
    ((s.getFunctionType false).2.getFunctionType true).1
        = (s.getFunctionType true).1 := by
  obtain ⟨input, result, wd, wod⟩ := s
  cases needsData <;> cases wd <;> cases wod <;>
    simp [FuncTypeInfoState.getFunctionType]

/-- C6: storing the two-scalar r-value (codePtr, dataPtr) into a
closure-shaped slot and loading it back yields exactly (codePtr, dataPtr),
for any values including the undef sentinel. -/
theorem c6_closure_round_trip (codePtr dataPtr : LLValue) (address : Address)
    (s : EmitState) :
    ∃ s2, FuncTypeInfo.store (RValue.forScalars [codePtr, dataPtr]) address s
        = some s2 ∧
      (FuncTypeInfo.load address s2).1 = RValue.forScalars [codePtr, dataPtr] := by
  refine ⟨_, rfl, ?_⟩
  simp [FuncTypeInfo.load, FuncTypeInfo.store, Builder.structGEP, Builder.load,
    Builder.store, EmitState.emit, lookupMem, RValue.forScalars]

/-- C7: for the builtin calls add, multiply and subtract with two operands,
the emitted operation is chosen by inspecting the low-level type of the
first operand: the float variant (FAdd/FMul/FSub) if it is floating-point,
otherwise the integer variant (Add/Mul/Sub). -/
theorem c7_binary_arithmetic_dispatch (lhs rhs : LLValue) (resultType : TypeInfo)
    (s : EmitState) (hs : resultType.schema.isScalar = true) :
    emitBuiltinCall .Add [lhs, rhs] resultType s
      = some (RValue.forScalars
          [(Builder.binop s (if lhs.getType.isFloatingPointTy then "FAdd" else "Add") lhs rhs).1],
        (Builder.binop s (if lhs.getType.isFloatingPointTy then "FAdd" else "Add") lhs rhs).2) ∧
    emitBuiltinCall .Mul [lhs, rhs] resultType s
      = some (RValue.forScalars
          [(Builder.binop s (if lhs.getType.isFloatingPointTy then "FMul" else "Mul") lhs rhs).1],
        (Builder.binop s (if lhs.getType.isFloatingPointTy then "FMul" else "Mul") lhs rhs).2) ∧
    emitBuiltinCall .Sub [lhs, rhs] resultType s
      = some (RValue.forScalars
          [(Builder.binop s (if lhs.getType.isFloatingPointTy then "FSub" else "Sub") lhs rhs).1],
        (Builder.binop s (if lhs.getType.isFloatingPointTy then "FSub" else "Sub") lhs rhs).2) := by
  cases hf : lhs.getType.isFloatingPointTy <;>
    simp [emitBuiltinCall, hs, binaryArithmeticOperation, Explosion.claimNext,
      Explosion.empty, hf]

/-- Witness for C7: Add on float operands emits FAdd; Add on integer
operands emits Add. -/
theorem c7_witness :
    emitBuiltinCall .Add [.arg 0 (.prim "float"), .arg 1 (.prim "float")] infoFloat {}
      = some (RValue.forScalars
          [(Builder.binop {} "FAdd" (.arg 0 (.prim "float")) (.arg 1 (.prim "float"))).1],
        (Builder.binop {} "FAdd" (.arg 0 (.prim "float")) (.arg 1 (.prim "float"))).2) ∧
    emitBuiltinCall .Add [.arg 0 (.prim "i64"), .arg 1 (.prim "i64")] infoI64 {}
      = some (RValue.forScalars
          [(Builder.binop {} "Add" (.arg 0 (.prim "i64")) (.arg 1 (.prim "i64"))).1],
        (Builder.binop {} "Add" (.arg 0 (.prim "i64")) (.arg 1 (.prim "i64"))).2) := by
  constructor
  · have h := (c7_binary_arithmetic_dispatch (.arg 0 (.prim "float"))
      (.arg 1 (.prim "float")) infoFloat {} (by decide)).1
    simpa [LLValue.getType, LLType.isFloatingPointTy] using h
  · have h := (c7_binary_arithmetic_dispatch (.arg 0 (.prim "i64"))
      (.arg 1 (.prim "i64")) infoI64 {} (by decide)).1
    simpa [LLValue.getType, LLType.isFloatingPointTy] using h

/-- Counterexample for C9 as stated: with no edges into the return block, a
reachable insertion point and a zero-scalar result, the epilogue's last
step is the void return, not the discarding of the alloca insertion point,
which happens first. -/
theorem c9_counterexample :
    (emitEpilogue 0 true (.scalars []) (.scalars [])).getLast?
        ≠ some .eraseAllocaIP ∧
    (emitEpilogue 0 true (.scalars []) (.scalars [])).getLast? = some .retVoid ∧
    (emitEpilogue 0 true (.scalars []) (.scalars [])).head?
        = some .eraseAllocaIP := by
  refine ⟨by decide, by decide, by decide⟩

/-- The return-emission tail of the epilogue never discards the alloca
insertion point. -/
theorem eraseAllocaIP_not_in_returnEvents (resultSchema : RValueSchema)
    (loadedRV : RValue) :
    EpilogueEvent.eraseAllocaIP ∉ epilogueReturnEvents resultSchema loadedRV := by
  unfold epilogueReturnEvents
  split
  · simp
  · split
    · simp
    · split <;> simp

/-- C9 amended: the scratch temporary insertion marker (the alloca
insertion point) is discarded as the very first step of the epilogue,
before return-block resolution and return emission, and exactly once,
regardless of which of the four control-flow-resolution branches is
taken. -/
theorem c9_amended_alloca_marker_first (returnBBUses : Nat) (hasValidIP : Bool)
    (resultSchema : RValueSchema) (loadedRV : RValue) :
    (emitEpilogue returnBBUses hasValidIP resultSchema loadedRV).head?
        = some .eraseAllocaIP ∧
    EpilogueEvent.eraseAllocaIP
        ∉ (emitEpilogue returnBBUses hasValidIP resultSchema loadedRV).tail := by
  refine ⟨rfl, ?_⟩
  unfold emitEpilogue
  have hr := eraseAllocaIP_not_in_returnEvents resultSchema loadedRV
  split
  · split <;> simp_all
  · split
    · simp_all
    · split <;> simp_all

/-- claimScalarParms advances the incoming-argument iterator by exactly one
slot per scalar type when it succeeds. -/
theorem claimScalarParms_idx (incoming : List LLValue) :
    ∀ (tys : List LLType) (i : Nat) (vs : List LLValue) (j : Nat),
    claimScalarParms incoming tys i = some (vs, j) → j = i + tys.length := by
  intro tys
  induction tys with
  | nil =>
    intro i vs j h
    simp [claimScalarParms] at h
    simp only [List.length_nil, Nat.add_zero]
    omega
  | cons t rest ih =>
    intro i vs j h
    simp only [claimScalarParms] at h
    cases hinc : incoming[i]? with
    | none => simp [hinc] at h
    | some v =>
      simp only [hinc] at h
      by_cases htv : v.getType = t
      · simp only [if_pos htv] at h
        cases hrec : claimScalarParms incoming rest (i + 1) with
        | none => simp [hrec] at h
        | some p =>
          obtain ⟨vs2, j2⟩ := p
          simp only [hrec] at h
          simp at h
          have := ih (i + 1) vs2 j2 hrec
          simp only [List.length_cons]
          omega
      · simp [if_neg htv] at h

/-- storeScalars only appends instructions. -/
theorem storeScalars_mem (address : Address) :
    ∀ (vs : List LLValue) (i : Nat) (s : EmitState) (x : Instr),
    x ∈ s.instrs → x ∈ (storeScalars address vs i s).instrs := by
  intro vs
  induction vs with
  | nil => intro i s x hx; simpa [storeScalars] using hx
  | cons v rest ih =>
    intro i s x hx
    simp only [storeScalars, Builder.structGEP, Builder.store, EmitState.emit]
    exact ih (i + 1) _ x (by simp [hx])

/-- One parameter-loop step advances the iterator by exactly the
parameter's slot count and only appends instructions. -/
theorem processParm_spec (incoming : List LLValue) (st : ParmLoopState)
    (parm : ArgDecl) (st2 : ParmLoopState)
    (h : processParm incoming st parm = some st2) :
    st2.curParm = st.curParm + schemaArgCount parm.type ∧
    ∀ x ∈ st.emit.instrs, x ∈ st2.emit.instrs := by
  cases hsch : (getFragileTypeInfo parm.type).schema with
  | aggregate t a =>
    simp only [processParm, hsch, RValueSchema.isAggregate, RValueSchema.isScalar,
      if_true, if_false, Bool.false_eq_true, ite_false, ite_true] at h
    cases hinc : incoming[st.curParm]? with
    | none => simp [hinc] at h
    | some v =>
      simp only [hinc] at h
      simp at h
      obtain rfl := h.symm
      simp [schemaArgCount, hsch]
  | scalars ts =>
    simp only [processParm, hsch, RValueSchema.isAggregate, RValueSchema.isScalar,
      RValueSchema.getScalarTypes, Bool.false_eq_true, ite_false, ite_true,
      createAlloca, EmitState.freshId, EmitState.emit] at h
    cases hclaim : claimScalarParms incoming ts st.curParm with
    | none => simp [hclaim] at h
    | some p =>
      obtain ⟨scalars, j⟩ := p
      simp only [hclaim] at h
      simp at h
      obtain rfl := h.symm
      constructor
      · simp [schemaArgCount, hsch, claimScalarParms_idx incoming ts st.curParm scalars j hclaim]
      · intro x hx
        exact storeScalars_mem _ scalars 0 _ x (by simp [hx])

/-- The parameter loop advances the iterator by the total slot count of the
parameters and only appends instructions. -/
theorem foldlM_processParm_spec (incoming : List LLValue) :
    ∀ (parms : List ArgDecl) (st final : ParmLoopState),
    List.foldlM (processParm incoming) st parms = some final →
    final.curParm = st.curParm + (parms.map (fun p => schemaArgCount p.type)).sum ∧
    ∀ x ∈ st.emit.instrs, x ∈ final.emit.instrs := by
  intro parms
  induction parms with
  | nil =>
    intro st final h
    simp [List.foldlM] at h
    subst h
    simp
  | cons p ps ih =>
    intro st final h
    rw [List.foldlM_cons] at h
    cases hp : processParm incoming st p with
    | none => rw [hp] at h; simp at h
    | some st1 =>
      rw [hp] at h
      simp only [Option.bind_eq_bind, Option.some_bind] at h
      obtain ⟨h1, hm1⟩ := processParm_spec incoming st p st1 hp
      obtain ⟨h2, hm2⟩ := ih st1 final h
      constructor
      · simp only [List.map_cons, List.sum_cons]
        omega
      · exact fun x hx => hm2 x (hm1 x hx)

/-- What a successful prologue run implies: the incoming arguments were
exactly the expected count, and the return slot was bound according to the
result schema (aggregate: the first incoming argument; zero scalars: no
slot; otherwise a freshly allocated local return-value slot whose alloca is
in the emitted instructions). -/
theorem emitPrologue_spec (input result : Ty) (parms : List ArgDecl)
    (incoming : List LLValue) (s : EmitState) (r : PrologueResult)
    (s2 : EmitState)
    (h : emitPrologue ⟨.func input result, parms⟩ incoming s = some (r, s2)) :
    incoming.length = expectedLowLevelArgCount ⟨.func input result, parms⟩ ∧
    (∀ t a, (getFragileTypeInfo result).schema = .aggregate t a →
      ∃ v, incoming[0]? = some v ∧
        r.ReturnSlot = some ⟨v, (getFragileTypeInfo result).storageAlignment⟩) ∧
    ((getFragileTypeInfo result).schema = .scalars [] → r.ReturnSlot = none) ∧
    (∀ ts, (getFragileTypeInfo result).schema = .scalars ts → ts ≠ [] →
      r.ReturnSlot = some ⟨.inst (s.nextId + 1)
          (.ptr (getFragileTypeInfo result).storageType),
        (getFragileTypeInfo result).storageAlignment⟩ ∧
      Instr.alloca (s.nextId + 1) (getFragileTypeInfo result).storageType
        (getFragileTypeInfo result).storageAlignment "return_value"
        ∈ s2.instrs) := by
  cases hsch : (getFragileTypeInfo result).schema with
  | aggregate t a =>
    simp only [emitPrologue, hsch, RValueSchema.isAggregate, RValueSchema.isScalarN,
      createAlloca, EmitState.freshId, EmitState.emit, if_true] at h
    cases hinc : incoming[0]? with
    | none => simp [hinc] at h
    | some v =>
      simp only [hinc] at h
      cases hfold : List.foldlM (processParm incoming)
          (⟨1, [],
            { nextId := s.nextId + 1,
              instrs := s.instrs ++ [.alloca s.nextId (.prim "i1") 1 "alloca point"],
              mem := s.mem }⟩ : ParmLoopState) parms with
      | none => rw [hfold] at h; simp at h
      | some final =>
        rw [hfold] at h
        simp only [] at h
        by_cases hlen : final.curParm = incoming.length
        · rw [if_pos hlen] at h
          simp at h
          obtain ⟨hr, hs2⟩ := h
          obtain ⟨hcur, _⟩ := foldlM_processParm_spec incoming parms _ final hfold
          simp at hcur
          refine ⟨?_, ?_, by simp [hsch], by simp [hsch]⟩
          · simp only [expectedLowLevelArgCount, hsch, RValueSchema.isAggregate,
              if_true]
            omega
          · intro t2 a2 ht2
            cases ht2
            exact ⟨v, rfl, by rw [← hr]⟩
        · rw [if_neg hlen] at h
          simp at h
  | scalars ts =>
    cases ts with
    | nil =>
      simp only [emitPrologue, hsch, RValueSchema.isAggregate, RValueSchema.isScalarN,
        createAlloca, EmitState.freshId, EmitState.emit, Bool.false_eq_true,
        ite_false, List.length_nil, beq_self_eq_true, ite_true] at h
      cases hfold : List.foldlM (processParm incoming)
          (⟨0, [],
            { nextId := s.nextId + 1,
              instrs := s.instrs ++ [.alloca s.nextId (.prim "i1") 1 "alloca point"],
              mem := s.mem }⟩ : ParmLoopState) parms with
      | none => rw [hfold] at h; simp at h
      | some final =>
        rw [hfold] at h
        simp only [] at h
        by_cases hlen : final.curParm = incoming.length
        · rw [if_pos hlen] at h
          simp at h
          obtain ⟨hr, hs2⟩ := h
          obtain ⟨hcur, _⟩ := foldlM_processParm_spec incoming parms _ final hfold
          simp at hcur
          refine ⟨?_, by simp [hsch], fun _ => by rw [← hr], by simp [hsch]⟩
          · simp only [expectedLowLevelArgCount, hsch, RValueSchema.isAggregate,
              Bool.false_eq_true, ite_false]
            omega
        · rw [if_neg hlen] at h
          simp at h
    | cons t0 ts0 =>
      simp only [emitPrologue, hsch, RValueSchema.isAggregate, RValueSchema.isScalarN,
        createAlloca, EmitState.freshId, EmitState.emit, Bool.false_eq_true,
        ite_false, List.length_cons] at h
      rw [if_neg (by simp)] at h
      simp only [] at h
      cases hfold : List.foldlM (processParm incoming)
          (⟨0, [],
            { nextId := s.nextId + 1 + 1,
              instrs := s.instrs ++ [.alloca s.nextId (.prim "i1") 1 "alloca point"]
                ++ [.alloca (s.nextId + 1) (getFragileTypeInfo result).storageType
                     (getFragileTypeInfo result).storageAlignment "return_value"],
              mem := s.mem }⟩ : ParmLoopState) parms with
      | none => rw [hfold] at h; simp at h
      | some final =>
        rw [hfold] at h
        simp only [] at h
        by_cases hlen : final.curParm = incoming.length
        · rw [if_pos hlen] at h
          simp at h
          obtain ⟨hr, hs2⟩ := h
          obtain ⟨hcur, hmem⟩ := foldlM_processParm_spec incoming parms _ final hfold
          simp at hcur
          refine ⟨?_, by simp [hsch], by simp [hsch], fun ts2 hts2 _ => ?_⟩
          · simp only [expectedLowLevelArgCount, hsch, RValueSchema.isAggregate,
              Bool.false_eq_true, ite_false]
            omega
          · constructor
            · rw [← hr]
            · rw [← hs2]
              exact hmem _ (by simp)
        · rw [if_neg hlen] at h
          simp at h

/-- C8: binding the result slot and the formal parameters consumes the
incoming low-level arguments exactly: a successful prologue implies the
incoming count equals the expected count (indirect-return pointer plus all
parameter slots), and any other count — leftover or insufficient — makes
the prologue fail rather than being silently tolerated. -/
theorem c8_prologue_argument_exhaustion (funcExpr : FuncExprModel)
    (incoming : List LLValue) (s : EmitState) :
    ((emitPrologue funcExpr incoming s).isSome →
      incoming.length = expectedLowLevelArgCount funcExpr) ∧
    (incoming.length ≠ expectedLowLevelArgCount funcExpr →
      emitPrologue funcExpr incoming s = none) := by
  have main : (emitPrologue funcExpr incoming s).isSome →
      incoming.length = expectedLowLevelArgCount funcExpr := by
    intro hs
    obtain ⟨⟨r, s2⟩, hp⟩ := Option.isSome_iff_exists.mp hs
    obtain ⟨ty, parms⟩ := funcExpr
    cases ty with
    | func input result =>
      exact (emitPrologue_spec input result parms incoming s r s2 hp).1
    | base info => simp [emitPrologue, createAlloca, EmitState.freshId] at hp
    | tuple info fields => simp [emitPrologue, createAlloca, EmitState.freshId] at hp
  refine ⟨main, fun hne => ?_⟩
  cases ho : emitPrologue funcExpr incoming s with
  | none => rfl
  | some p => exact absurd (main (by simp [ho])) hne

/-- Witness for C8: the spec's own example — three scalar parameters of
1, 2 and 1 slots plus an aggregate result — succeeds with exactly 5
incoming arguments, and fails with 4. -/
theorem c8_witness :
    ([.arg 0 (.ptr (.prim "T")), .arg 1 (.prim "i64"), .arg 2 (.prim "i64"),
      .arg 3 (.prim "i1"), .arg 4 (.prim "i64")] : List LLValue).length
      = expectedLowLevelArgCount
          ⟨.func (.tuple infoUnit [tyI64, tyPair, tyI64]) tyAgg,
           [⟨"a", tyI64⟩, ⟨"b", tyPair⟩, ⟨"c", tyI64⟩]⟩ ∧
    emitPrologue
      ⟨.func (.tuple infoUnit [tyI64, tyPair, tyI64]) tyAgg,
       [⟨"a", tyI64⟩, ⟨"b", tyPair⟩, ⟨"c", tyI64⟩]⟩
      [.arg 0 (.ptr (.prim "T")), .arg 1 (.prim "i64"), .arg 2 (.prim "i64"),
       .arg 3 (.prim "i1")] {} = none :=
  ⟨(c8_prologue_argument_exhaustion
      ⟨.func (.tuple infoUnit [tyI64, tyPair, tyI64]) tyAgg,
       [⟨"a", tyI64⟩, ⟨"b", tyPair⟩, ⟨"c", tyI64⟩]⟩
      [.arg 0 (.ptr (.prim "T")), .arg 1 (.prim "i64"), .arg 2 (.prim "i64"),
       .arg 3 (.prim "i1"), .arg 4 (.prim "i64")] {}).1 (by decide),
   (c8_prologue_argument_exhaustion
      ⟨.func (.tuple infoUnit [tyI64, tyPair, tyI64]) tyAgg,
       [⟨"a", tyI64⟩, ⟨"b", tyPair⟩, ⟨"c", tyI64⟩]⟩
      [.arg 0 (.ptr (.prim "T")), .arg 1 (.prim "i64"), .arg 2 (.prim "i64"),
       .arg 3 (.prim "i1")] {}).2 (by decide)⟩

/-- Counterexample for C5 as stated: for a single-scalar result type the
prologue DOES allocate a local return slot (the code tests isScalar(0),
i.e. zero scalars, not one), so "single-scalar result allocates no local
return slot" is false. -/
theorem c5_counterexample :
    (emitPrologue ⟨.func tyUnit tyI64, []⟩ [] {}).map (fun p => p.1.ReturnSlot)
      = some (some ⟨.inst 1 (.ptr (.prim "i64")), 8⟩) ∧
    (emitPrologue ⟨.func tyUnit tyI64, []⟩ [] {}).map (fun p => p.1.ReturnSlot)
      ≠ some none := by
  constructor <;> decide

/-- C5 amended: the prologue binds the return representation as follows —
an aggregate result makes the first incoming low-level argument the return
slot address; a ZERO-scalar result allocates no local return slot; a
single- or multi-scalar result allocates a local scoped return-value
slot. -/
theorem c5_amended_return_binding (input result : Ty) (parms : List ArgDecl)
    (incoming : List LLValue) (s : EmitState) (r : PrologueResult)
    (s2 : EmitState)
    (h : emitPrologue ⟨.func input result, parms⟩ incoming s = some (r, s2)) :
    (∀ t a, (getFragileTypeInfo result).schema = .aggregate t a →
      ∃ v, incoming[0]? = some v ∧
        r.ReturnSlot = some ⟨v, (getFragileTypeInfo result).storageAlignment⟩) ∧
    ((getFragileTypeInfo result).schema = .scalars [] → r.ReturnSlot = none) ∧
    (∀ ts, (getFragileTypeInfo result).schema = .scalars ts → ts ≠ [] →
      r.ReturnSlot = some ⟨.inst (s.nextId + 1)
          (.ptr (getFragileTypeInfo result).storageType),
        (getFragileTypeInfo result).storageAlignment⟩ ∧
      Instr.alloca (s.nextId + 1) (getFragileTypeInfo result).storageType
        (getFragileTypeInfo result).storageAlignment "return_value"
        ∈ s2.instrs) :=
  (emitPrologue_spec input result parms incoming s r s2 h).2

/-- Witness for C5 amended: a concrete single-scalar-result function whose
prologue allocates the local return-value slot. -/
theorem c5_witness :
    ∃ r s2, emitPrologue ⟨.func tyUnit tyI64, []⟩ [] {} = some (r, s2) ∧
      r.ReturnSlot = some ⟨.inst 1 (.ptr (.prim "i64")), 8⟩ ∧
      Instr.alloca 1 (.prim "i64") 8 "return_value" ∈ s2.instrs := by
  have h : emitPrologue ⟨.func tyUnit tyI64, []⟩ [] {} = some
      (⟨some ⟨.inst 1 (.ptr (.prim "i64")), 8⟩, []⟩,
       { nextId := 2,
         instrs := [.alloca 0 (.prim "i1") 1 "alloca point",
                    .alloca 1 (.prim "i64") 8 "return_value"],
         mem := [] }) := rfl
  exact ⟨_, _, h,
    (c5_amended_return_binding tyUnit tyI64 [] [] {} _ _ h).2.2
      [.prim "i64"] rfl (by simp)⟩

end IRGen
